import Mathlib

/-!
Verification of `otree_redwood/firebase/watch.py`.

The file embeds, as executable Lean definitions:
  * the compiled decision-path regular expression `_DECISION_RE`
    (seven literal segments interleaved with greedy `.*` capture groups,
    matched with Python `re.match` semantics: anchored at the start,
    `.` matches every character except a newline, each group is greedy
    with backtracking, and the pattern may match a proper portion of
    the subject string);
  * the decision-record decoder `_handleDecisionEvent` together with the
    identity lookups and the persistence call it performs;
  * the registry / dispatch loop of `Thread.run` and the module-level
    `register_path` / `start` operations.
Theorems about these definitions settle the specification claims.
-/

/-! ### Literal segments of the compiled decision pattern -/

/-- Literal head segment of `_DECISION_RE`: the text "/session/". -/
def litSession : List Char := '/' :: 's' :: 'e' :: 's' :: 's' :: 'i' :: 'o' :: 'n' :: '/' :: []

/-- Tail of the "/app/" literal after its leading separator. -/
def tailApp : List Char := 'a' :: 'p' :: 'p' :: '/' :: []

/-- Literal segment "/app/". -/
def litApp : List Char := '/' :: tailApp

/-- Tail of the "/subsession/" literal after its leading separator. -/
def tailSubsession : List Char :=
  's' :: 'u' :: 'b' :: 's' :: 'e' :: 's' :: 's' :: 'i' :: 'o' :: 'n' :: '/' :: []

/-- Literal segment "/subsession/". -/
def litSubsession : List Char := '/' :: tailSubsession

/-- Tail of the "/round/" literal after its leading separator. -/
def tailRound : List Char := 'r' :: 'o' :: 'u' :: 'n' :: 'd' :: '/' :: []

/-- Literal segment "/round/". -/
def litRound : List Char := '/' :: tailRound

/-- Tail of the "/group/" literal after its leading separator. -/
def tailGroup : List Char := 'g' :: 'r' :: 'o' :: 'u' :: 'p' :: '/' :: []

/-- Literal segment "/group/". -/
def litGroup : List Char := '/' :: tailGroup

/-- Tail of the "/component/" literal after its leading separator. -/
def tailComponent : List Char :=
  'c' :: 'o' :: 'm' :: 'p' :: 'o' :: 'n' :: 'e' :: 'n' :: 't' :: '/' :: []

/-- Literal segment "/component/". -/
def litComponent : List Char := '/' :: tailComponent

/-- Tail of the "/decisions/" literal after its leading separator. -/
def tailDecisions : List Char :=
  'd' :: 'e' :: 'c' :: 'i' :: 's' :: 'i' :: 'o' :: 'n' :: 's' :: '/' :: []

/-- Literal segment "/decisions/". -/
def litDecisions : List Char := '/' :: tailDecisions

/-! ### Greedy matching of the decision pattern

`_DECISION_RE` is `/session/(.*)/app/(.*)/subsession/(.*)/round/(.*)`
`/group/(.*)/component/(.*)/decisions/(.*)`.  Python's `.` matches any
character except `'\n'`, and every group is greedy: the engine first lets a
group consume as many characters as possible and backtracks one character at
a time until the rest of the pattern matches. -/

/-- Python's `.` can match a character exactly when it is not a newline;
`noNL s` says every character of `s` is matchable by `.`. -/
def noNL (s : List Char) : Bool := s.all (fun c => c != '\n')

/-- Try to let the current greedy group consume exactly `i` characters of
`s`: the consumed characters must all be `.`-matchable, the literal `L`
must follow, and the continuation `next` must accept the remainder. -/
def tryAt (L : List Char) (next : List Char → Option β) (s : List Char) (i : Nat) :
    Option (List Char × β) :=
  if noNL (s.take i) && L.isPrefixOf (s.drop i) then
    match next (s.drop (i + L.length)) with
    | some b => some (s.take i, b)
    | none => none
  else none

/-- Greedy search for a group followed by literal `L`: try letting the group
consume `i` characters first, then backtrack to shorter captures, exactly as
the backtracking regex engine does. -/
def greedyFind (L : List Char) (next : List Char → Option β) (s : List Char) :
    Nat → Option (List Char × β)
  | 0 => tryAt L next s 0
  | i + 1 =>
    match tryAt L next s (i + 1) with
    | some r => some r
    | none => greedyFind L next s i

/-- The named captures of `_DECISION_RE` (the `groupdict` of a match). -/
structure Caps where
  session : List Char
  app : List Char
  subsession : List Char
  round : List Char
  group : List Char
  component : List Char
  participant_code : List Char
deriving DecidableEq, Repr

/-- Trailing group `(?P<participant_code>.*)`: greedy with nothing after it,
so it consumes the maximal `.`-matchable run — everything up to the first
newline (or the end of the subject). -/
def mLast (s : List Char) : Option (List Char) :=
  some (s.takeWhile (fun c => c != '\n'))

/-- Group 6 onward: `(?P<component>.*)/decisions/(?P<participant_code>.*)`. -/
def m6 (s : List Char) : Option (List Char × List Char) :=
  greedyFind litDecisions mLast s s.length

/-- Group 5 onward, starting at `(?P<group>.*)/component/...`. -/
def m5 (s : List Char) : Option (List Char × (List Char × List Char)) :=
  greedyFind litComponent m6 s s.length

/-- Group 4 onward, starting at `(?P<round>.*)/group/...`. -/
def m4 (s : List Char) : Option (List Char × (List Char × (List Char × List Char))) :=
  greedyFind litGroup m5 s s.length

/-- Group 3 onward, starting at `(?P<subsession>.*)/round/...`. -/
def m3 (s : List Char) :
    Option (List Char × (List Char × (List Char × (List Char × List Char)))) :=
  greedyFind litRound m4 s s.length

/-- Group 2 onward, starting at `(?P<app>.*)/subsession/...`. -/
def m2 (s : List Char) :
    Option (List Char × (List Char × (List Char × (List Char × (List Char × List Char))))) :=
  greedyFind litSubsession m3 s s.length

/-- Group 1 onward, starting at `(?P<session>.*)/app/...`. -/
def m1 (s : List Char) :
    Option (List Char ×
      (List Char × (List Char × (List Char × (List Char × (List Char × List Char)))))) :=
  greedyFind litApp m2 s s.length

/-- `_DECISION_RE.match(path)`: anchored at the start of `path`; on success
returns the `groupdict`. -/
def decisionMatch (path : List Char) : Option Caps :=
  if litSession.isPrefixOf path then
    match m1 (path.drop litSession.length) with
    | some (c1, (c2, (c3, (c4, (c5, (c6, c7)))))) =>
      some ⟨c1, c2, c3, c4, c5, c6, c7⟩
    | none => none
  else none

/-- The decision path template with the given strings substituted for the
seven capture names, in the layout of `_DECISION_RE`. -/
def buildDecisionPath (c : Caps) : List Char :=
  litSession ++ (c.session ++ (litApp ++ (c.app ++ (litSubsession ++ (c.subsession ++
    (litRound ++ (c.round ++ (litGroup ++ (c.group ++ (litComponent ++ (c.component ++
      (litDecisions ++ c.participant_code))))))))))))

/-! ### The decision-record decoder `_handleDecisionEvent`

The decoder builds a `Decision` model object field by field:
  * `Session.objects.get(code=...)` failing with `Session.DoesNotExist` is
    caught and the event dropped without an error;
  * `int(g['subsession'])` failing with `ValueError` is caught and the
    field left unset;
  * `int(g['round'])` and `int(g['group'])` failing raise `ValueError`
    uncaught;
  * `Participant.objects.get(code=...)` failing raises
    `Participant.DoesNotExist` uncaught;
  * finally `d.save()` hands the record to the persistence layer.
The payload `data` is stored uninterpreted; it is modelled by its raw
text. -/

/-- Raw event payload, passed through uninterpreted by the decoder. -/
abbrev Value := List Char

/-- A decimal digit as a numeric value, in Python `int()` style. -/
def decDigit (c : Char) : Option Nat :=
  if '0' ≤ c ∧ c ≤ '9' then some (c.toNat - '0'.toNat) else none

/-- Accumulate decimal digits; any non-digit makes the parse fail. -/
def natDigitsAux : Nat → List Char → Option Nat
  | acc, [] => some acc
  | acc, c :: s =>
    match decDigit c with
    | some d => natDigitsAux (acc * 10 + d) s
    | none => none

/-- Parse a non-empty all-digit string as a natural number. -/
def natDigits : List Char → Option Nat
  | [] => none
  | c :: s => natDigitsAux 0 (c :: s)

/-- Python `int()` applied to a captured string: an optional sign followed
by at least one decimal digit; anything else raises `ValueError`, modelled
as `none`. -/
def pyInt : List Char → Option Int
  | '-' :: s => (natDigits s).map (fun n => -(n : Int))
  | '+' :: s => (natDigits s).map (fun n => (n : Int))
  | s => (natDigits s).map (fun n => (n : Int))

/-- The `Decision` model row assembled by `_handleDecisionEvent`.  The
resolved session and participant identities are represented by their
codes. -/
structure DecisionRecord where
  component : List Char
  session : List Char
  subsession : Option Int
  round : Int
  group : Int
  participant : List Char
  app : List Char
  value : Value
deriving DecidableEq, Repr

/-- The identity-lookup collaborator: the session and participant codes
known to this oTree instance's database. -/
structure Db where
  sessions : List (List Char)
  participants : List (List Char)

/-- Exceptions `_handleDecisionEvent` lets escape: `ValueError` from
`int()` on `round`/`group`, and `Participant.DoesNotExist` from the
participant lookup. -/
inductive DecErr where
  | valueError
  | participantDoesNotExist
deriving DecidableEq, Repr

/-- `_handleDecisionEvent(match, data)`: decode the `groupdict` `g` into a
`DecisionRecord` and persist it.  The returned list holds the records
handed to `save` (so `[]` means `save` was never called); an exception
escaping the handler is `Except.error`. -/
def handleDecisionEvent (db : Db) (g : Caps) (data : Value) :
    Except DecErr (List DecisionRecord) :=
  if db.sessions.contains g.session then
    let subs : Option Int := pyInt g.subsession
    match pyInt g.round with
    | none => .error .valueError
    | some r =>
      match pyInt g.group with
      | none => .error .valueError
      | some gr =>
        if db.participants.contains g.participant_code then
          .ok [{ component := g.component, session := g.session, subsession := subs,
                 round := r, group := gr, participant := g.participant_code,
                 app := g.app, value := data }]
        else .error .participantDoesNotExist
  else .ok []

/-- The records a run of the decoder handed to the persistence layer. -/
def savedOf : Except DecErr (List DecisionRecord) → List DecisionRecord
  | .ok l => l
  | .error _ => []

/-! ### The registry and the dispatch loop of `Thread.run`

`Thread.matchers` is a list of `(compiled regex, handler)` pairs; matching
a regex is modelled as a function from paths to optional captures.  A
handler may raise (the `Bool` component) and may call `register_path`
while it runs (the registrations it appends).  Handlers are tagged with an
identifier so invocation order is observable. -/

/-- One entry of `Thread.matchers`: an identifier, the compiled pattern's
match function, and the handler, which reports whether it raised and which
registrations it appended while running. -/
inductive Reg : Type where
  | mk : Nat → (List Char → Option Caps) → (Caps → Value → Bool × List Reg) → Reg

/-- Identifier of a registration. -/
def Reg.rid : Reg → Nat
  | .mk i _ _ => i

/-- Match function of a registration's compiled pattern. -/
def Reg.matcher : Reg → (List Char → Option Caps)
  | .mk _ m _ => m

/-- Handler of a registration. -/
def Reg.handler : Reg → (Caps → Value → Bool × List Reg)
  | .mk _ _ h => h

/-- Observable steps of the dispatch loop: the `logging.warning` for an
unmatched path, a handler invocation, and the `logger.exception` record
written when a handler raises. -/
inductive LoopAct where
  | warnNoMatch (path : List Char)
  | invoked (rid : Nat)
  | loggedHandlerError (path : List Char)
deriving DecidableEq, Repr

/-- The matching phase of `Thread.run`: walk `self.matchers` in order and
collect every registration whose regex matches the path, with its
captures. -/
def matchesOf (regs : List Reg) (path : List Char) : List (Reg × Caps) :=
  regs.filterMap (fun r => (r.matcher path).map (fun c => (r, c)))

/-- The invocation phase of `Thread.run`: call each collected handler in
order inside `try/except`; a raising handler is logged and the loop goes
on.  Registrations appended by handlers extend the registry state. -/
def invokeAll (path : List Char) (data : Value) :
    List (Reg × Caps) → List Reg → List LoopAct × List Reg
  | [], regs => ([], regs)
  | (r, c) :: rest, regs =>
    let out := r.handler c data
    let acts := LoopAct.invoked r.rid ::
      (if out.1 then [LoopAct.loggedHandlerError path] else [])
    let next := invokeAll path data rest (regs ++ out.2)
    (acts ++ next.1, next.2)

/-- Processing of one well-formed `put` payload: collect all matches
first, warn when there are none, then invoke every matched handler. -/
def processPut (regs : List Reg) (path : List Char) (data : Value) :
    List LoopAct × List Reg :=
  let ms := matchesOf regs path
  let warn := if ms.isEmpty then [LoopAct.warnNoMatch path] else []
  let inv := invokeAll path data ms regs
  (warn ++ inv.1, inv.2)

/-- What `json.loads(msg.data)` followed by the `'path'`/`'data'` lookups
yields for one event: the text was not valid JSON (`json.loads` raises),
it decoded to an object without a `'path'` key (the lookup raises
`KeyError`), or it carried both fields. -/
inductive MsgData where
  | malformed
  | noPath (data : Value)
  | putData (path : List Char) (data : Value)
deriving DecidableEq, Repr

/-- One server-sent event: its `event` tag and its decoded `data` field. -/
structure Msg where
  event : List Char
  data : MsgData
deriving DecidableEq, Repr

/-- The uncaught exceptions that can escape `Thread.run`'s loop body and
kill the watcher thread. -/
inductive Crash where
  | jsonError
  | keyError
deriving DecidableEq, Repr

/-- The `event` tag the loop reacts to. -/
def putTag : List Char := 'p' :: 'u' :: 't' :: []

/-- The event loop of `Thread.run` over a stream of events: non-`put`
events are skipped; a `put` event is decoded and dispatched; `json.loads`
failures and `KeyError` on the missing `'path'` key are not caught, so
they terminate the loop, leaving the remaining events unprocessed.
Returns the actions performed, the final registry, and the crash that
ended the loop, if any. -/
def runLoop (regs : List Reg) : List Msg → List LoopAct × List Reg × Option Crash
  | [] => ([], regs, none)
  | m :: rest =>
    if m.event = putTag then
      match m.data with
      | .malformed => ([], regs, some .jsonError)
      | .noPath _ => ([], regs, some .keyError)
      | .putData p d =>
        let step := processPut regs p d
        let next := runLoop step.2 rest
        (step.1 ++ next.1, next.2.1, next.2.2)
    else runLoop regs rest

/-! ### Module-level state: `start` and `register_path`

`register_path` dereferences the module global `_watchThread`; before
`start()` has run, that global does not exist and the access raises
`NameError`. -/

/-- The module state: `some regs` when `start()` has created the watcher
thread (whose `matchers` list is `regs`), `none` before. -/
structure ModuleState where
  watchThread : Option (List Reg)

/-- `register_path(path, handlerFunction)`: append the compiled pattern
and handler to the watcher thread's `matchers`; raises `NameError` when
the `_watchThread` global has not been created yet. -/
def register_path (st : ModuleState) (r : Reg) : Except Unit ModuleState :=
  match st.watchThread with
  | none => .error ()
  | some regs => .ok ⟨some (regs ++ [r])⟩

/-- Handler identifiers appearing in a list of actions, in order. -/
def invokedIds (acts : List LoopAct) : List Nat :=
  acts.filterMap (fun a =>
    match a with
    | .invoked i => some i
    | _ => none)

/-! ### Basic facts about prefixes, takeWhile and newline-freedom -/

/-- A successful `isPrefixOf` exhibits the subject as the prefix followed
by the rest. -/
lemma isPrefixOf_eq : ∀ (L s : List Char), L.isPrefixOf s = true → s = L ++ s.drop L.length := by
  intro L
  induction L with
  | nil => intro s _; simp
  | cons c L ih =>
    intro s h
    cases s with
    | nil => simp [List.isPrefixOf] at h
    | cons d s' =>
      simp only [List.isPrefixOf, Bool.and_eq_true, beq_iff_eq] at h
      obtain ⟨rfl, h2⟩ := h
      simpa [List.cons_append] using ih s' h2

/-- `L` is a Boolean prefix of `L ++ t`. -/
lemma isPrefixOf_append_self : ∀ (L t : List Char), L.isPrefixOf (L ++ t) = true := by
  intro L t
  induction L with
  | nil => simp [List.isPrefixOf]
  | cons c L ih => simp [List.isPrefixOf, ih]

/-- Newline-freedom of a list, membership form. -/
lemma noNL_iff (s : List Char) : noNL s = true ↔ '\n' ∉ s := by
  unfold noNL
  rw [List.all_eq_true]
  constructor
  · intro h hm
    have := h _ hm
    simp at this
  · intro h c hc
    have : c ≠ '\n' := fun he => h (he ▸ hc)
    simpa using this

/-- `takeWhile` keeps a list whose members all satisfy the test. -/
lemma takeWhile_eq_self_of_noNL : ∀ (s : List Char), '\n' ∉ s →
    s.takeWhile (fun c => c != '\n') = s := by
  intro s
  induction s with
  | nil => intro _; rfl
  | cons c s ih =>
    intro h
    have hc : c ≠ '\n' := fun he => h (he ▸ List.mem_cons_self c s)
    have hs : '\n' ∉ s := fun hm => h (List.mem_cons_of_mem c hm)
    simp only [List.takeWhile]
    rw [show (c != '\n') = true by simpa using hc]
    simp [ih hs]

/-! ### Soundness and completeness of the greedy group search -/

/-- A successful `tryAt` decomposes the subject around the literal. -/
lemma tryAt_sound {β : Type} {L : List Char} {next : List Char → Option β}
    {s : List Char} {i : Nat} {c : List Char} {b : β}
    (h : tryAt L next s i = some (c, b)) :
    ∃ t, s = c ++ (L ++ t) ∧ next t = some b ∧ noNL c = true := by
  unfold tryAt at h
  by_cases hcond : (noNL (s.take i) && L.isPrefixOf (s.drop i)) = true
  · rw [if_pos hcond] at h
    obtain ⟨hnl, hpre⟩ : noNL (s.take i) = true ∧ L.isPrefixOf (s.drop i) = true := by
      simpa using hcond
    cases hnext : next (s.drop (i + L.length)) with
    | none => rw [hnext] at h; exact absurd h (by simp)
    | some b' =>
      rw [hnext] at h
      injection h with h'
      obtain ⟨rfl, rfl⟩ : s.take i = c ∧ b' = b := by
        constructor
        · exact congrArg Prod.fst h'
        · exact congrArg Prod.snd h'
      refine ⟨s.drop (i + L.length), ?_, hnext, hnl⟩
      conv_lhs => rw [← List.take_append_drop i s]
      rw [isPrefixOf_eq L (s.drop i) hpre]
      congr 1
      congr 1
      rw [List.drop_drop]
  · rw [if_neg hcond] at h
    exact absurd h (by simp)

/-- A successful greedy search decomposes the subject around the literal,
with a newline-free capture accepted by the continuation. -/
lemma greedyFind_sound {β : Type} {L : List Char} {next : List Char → Option β}
    {s : List Char} {c : List Char} {b : β} :
    ∀ i, greedyFind L next s i = some (c, b) →
      ∃ t, s = c ++ (L ++ t) ∧ next t = some b ∧ noNL c = true := by
  intro i
  induction i with
  | zero => intro h; exact tryAt_sound h
  | succ i ih =>
    intro h
    unfold greedyFind at h
    cases htry : tryAt L next s (i + 1) with
    | some r =>
      rw [htry] at h
      injection h with h'
      exact tryAt_sound (h' ▸ htry)
    | none =>
      rw [htry] at h
      exact ih h

/-- At the index of the true capture, `tryAt` succeeds. -/
lemma tryAt_at_split {β : Type} {L : List Char} {next : List Char → Option β}
    (c t : List Char) (hc : noNL c = true) {b : β} (hn : next t = some b) :
    tryAt L next (c ++ (L ++ t)) c.length = some (c, b) := by
  unfold tryAt
  have htake : (c ++ (L ++ t)).take c.length = c := List.take_left c (L ++ t)
  have hdrop : (c ++ (L ++ t)).drop c.length = L ++ t := List.drop_left c (L ++ t)
  have hdrop2 : (c ++ (L ++ t)).drop (c.length + L.length) = t := by
    rw [← List.drop_drop, hdrop, List.drop_left]
  rw [htake, hdrop, hdrop2, hc, isPrefixOf_append_self, hn]
  rfl

/-- If some split of the subject matches, the greedy search (started at or
above that split) succeeds. -/
lemma greedyFind_isSome {β : Type} {L : List Char} {next : List Char → Option β}
    (c t : List Char) (hc : noNL c = true) (hn : (next t).isSome = true) :
    ∀ i, c.length ≤ i → (greedyFind L next (c ++ (L ++ t)) i).isSome = true := by
  obtain ⟨b, hb⟩ := Option.isSome_iff_exists.mp hn
  intro i
  induction i with
  | zero =>
    intro hle
    have hc0 : c.length = 0 := Nat.le_zero.mp hle
    unfold greedyFind
    rw [← hc0, tryAt_at_split c t hc hb]
    rfl
  | succ i ih =>
    intro hle
    unfold greedyFind
    cases htry : tryAt L next (c ++ (L ++ t)) (i + 1) with
    | some r => simp
    | none =>
      have hne : c.length ≠ i + 1 := by
        intro he
        rw [← he, tryAt_at_split c t hc hb] at htry
        exact absurd htry (by simp)
      exact ih (by omega)

/-- The greedy search over the whole subject succeeds when a split
exists. -/
lemma greedyFind_isSome_full {β : Type} {L : List Char} {next : List Char → Option β}
    (c t : List Char) (hc : noNL c = true) (hn : (next t).isSome = true) :
    (greedyFind L next (c ++ (L ++ t)) (c ++ (L ++ t)).length).isSome = true := by
  apply greedyFind_isSome c t hc hn
  rw [List.length_append]
  exact Nat.le_add_right _ _

/-! ### Separator counting and the uniqueness of a decomposition

A path built from separator-free capture values decomposes around the six
internal literals in exactly one way: counting `'/'` occurrences forces
every capture of any decomposition to be separator-free, and
separator-free captures can then be peeled off one literal at a time. -/

/-- Number of occurrences of the path separator in a string. -/
def slashCount : List Char → Nat
  | [] => 0
  | c :: s => (if c = '/' then 1 else 0) + slashCount s

/-- Separator counting is additive over concatenation. -/
lemma slashCount_append : ∀ (a b : List Char), slashCount (a ++ b) = slashCount a + slashCount b := by
  intro a b
  induction a with
  | nil => simp [slashCount]
  | cons c a ih => simp [slashCount, ih]; omega

/-- A separator-free string has separator count zero. -/
lemma slashCount_eq_zero : ∀ (a : List Char), '/' ∉ a → slashCount a = 0 := by
  intro a
  induction a with
  | nil => intro _; rfl
  | cons c a ih =>
    intro h
    have hc : c ≠ '/' := fun he => h (he ▸ List.mem_cons_self c a)
    have ha : '/' ∉ a := fun hm => h (List.mem_cons_of_mem c hm)
    simp [slashCount, hc, ih ha]

/-- A string with separator count zero is separator-free. -/
lemma not_mem_of_slashCount_eq_zero : ∀ (a : List Char), slashCount a = 0 → '/' ∉ a := by
  intro a
  induction a with
  | nil => intro _; simp
  | cons c a ih =>
    intro h hm
    by_cases hc : c = '/'
    · simp [slashCount, hc] at h
    · simp [slashCount, hc] at h
      rcases List.mem_cons.mp hm with he | hm'
      · exact hc he.symm
      · exact ih h hm'

/-- Two separator-free strings followed by a separator and arbitrary tails
coincide exactly when their parts do. -/
lemma slashfree_sep_inj : ∀ (a b x y : List Char), '/' ∉ a → '/' ∉ b →
    a ++ '/' :: x = b ++ '/' :: y → a = b ∧ x = y := by
  intro a
  induction a with
  | nil =>
    intro b x y _ hb h
    cases b with
    | nil => simpa using h
    | cons d b' =>
      simp only [List.nil_append, List.cons_append, List.cons.injEq] at h
      exfalso
      apply hb
      rw [← h.1]
      exact List.mem_cons_self _ _
  | cons c a' ih =>
    intro b x y ha hb h
    cases b with
    | nil =>
      simp only [List.cons_append, List.nil_append, List.cons.injEq] at h
      exfalso
      apply ha
      rw [h.1]
      exact List.mem_cons_self _ _
    | cons d b' =>
      simp only [List.cons_append, List.cons.injEq] at h
      have ha' : '/' ∉ a' := fun hm => ha (List.mem_cons_of_mem c hm)
      have hb' : '/' ∉ b' := fun hm => hb (List.mem_cons_of_mem d hm)
      obtain ⟨h1, h2⟩ := ih b' x y ha' hb' h.2
      exact ⟨by rw [h.1, h1], h2⟩

/-! ### Soundness of the full decision match -/

/-- A successful match of groups 1–7 decomposes the post-"/session/" text
as the six internal literals interleaved with the captures, the last
capture being the newline-free head of the remainder. -/
lemma m1_sound {s c1 c2 c3 c4 c5 c6 c7 : List Char}
    (h : m1 s = some (c1, (c2, (c3, (c4, (c5, (c6, c7))))))) :
    ∃ t, s = c1 ++ (litApp ++ (c2 ++ (litSubsession ++ (c3 ++ (litRound ++ (c4 ++ (litGroup ++
        (c5 ++ (litComponent ++ (c6 ++ (litDecisions ++ t))))))))))) ∧
      c7 = t.takeWhile (fun c => c != '\n') ∧
      noNL c1 = true ∧ noNL c2 = true ∧ noNL c3 = true ∧
      noNL c4 = true ∧ noNL c5 = true ∧ noNL c6 = true := by
  obtain ⟨t1, hs1, hm2, hn1⟩ := greedyFind_sound _ h
  obtain ⟨t2, hs2, hm3, hn2⟩ := greedyFind_sound _ hm2
  obtain ⟨t3, hs3, hm4, hn3⟩ := greedyFind_sound _ hm3
  obtain ⟨t4, hs4, hm5, hn4⟩ := greedyFind_sound _ hm4
  obtain ⟨t5, hs5, hm6, hn5⟩ := greedyFind_sound _ hm5
  obtain ⟨t6, hs6, hml, hn6⟩ := greedyFind_sound _ hm6
  refine ⟨t6, ?_, ?_, hn1, hn2, hn3, hn4, hn5, hn6⟩
  · rw [hs1, hs2, hs3, hs4, hs5, hs6]
  · unfold mLast at hml
    injection hml with h'
    exact h'.symm

/-! ### Completeness of the full decision match on built paths -/

/-- Groups 1–7 match any subject shaped like the template with
newline-free capture values in place. -/
lemma m1_isSome (v1 v2 v3 v4 v5 v6 v7 : List Char)
    (h1 : noNL v1 = true) (h2 : noNL v2 = true) (h3 : noNL v3 = true)
    (h4 : noNL v4 = true) (h5 : noNL v5 = true) (h6 : noNL v6 = true) :
    (m1 (v1 ++ (litApp ++ (v2 ++ (litSubsession ++ (v3 ++ (litRound ++ (v4 ++ (litGroup ++
      (v5 ++ (litComponent ++ (v6 ++ (litDecisions ++ v7))))))))))))).isSome = true := by
  have s6 : (m6 (v6 ++ (litDecisions ++ v7))).isSome = true := by
    unfold m6
    exact greedyFind_isSome_full v6 v7 h6 (by unfold mLast; simp)
  have s5 : (m5 (v5 ++ (litComponent ++ (v6 ++ (litDecisions ++ v7))))).isSome = true := by
    unfold m5
    exact greedyFind_isSome_full v5 _ h5 s6
  have s4 : (m4 (v4 ++ (litGroup ++ (v5 ++ (litComponent ++
      (v6 ++ (litDecisions ++ v7))))))).isSome = true := by
    unfold m4
    exact greedyFind_isSome_full v4 _ h4 s5
  have s3 : (m3 (v3 ++ (litRound ++ (v4 ++ (litGroup ++ (v5 ++ (litComponent ++
      (v6 ++ (litDecisions ++ v7))))))))).isSome = true := by
    unfold m3
    exact greedyFind_isSome_full v3 _ h3 s4
  have s2 : (m2 (v2 ++ (litSubsession ++ (v3 ++ (litRound ++ (v4 ++ (litGroup ++
      (v5 ++ (litComponent ++ (v6 ++ (litDecisions ++ v7))))))))))).isSome = true := by
    unfold m2
    exact greedyFind_isSome_full v2 _ h2 s3
  unfold m1
  exact greedyFind_isSome_full v1 _ h1 s2

/-- Uniqueness of the decomposition: when the substituted values are
separator-free, any decomposition of the built text around the six
internal literals recovers exactly those values. -/
lemma decomp_unique (v1 v2 v3 v4 v5 v6 v7 c1 c2 c3 c4 c5 c6 t : List Char)
    (h1 : '/' ∉ v1) (h2 : '/' ∉ v2) (h3 : '/' ∉ v3) (h4 : '/' ∉ v4)
    (h5 : '/' ∉ v5) (h6 : '/' ∉ v6) (h7 : '/' ∉ v7)
    (E : v1 ++ (litApp ++ (v2 ++ (litSubsession ++ (v3 ++ (litRound ++ (v4 ++ (litGroup ++
        (v5 ++ (litComponent ++ (v6 ++ (litDecisions ++ v7))))))))))) =
      c1 ++ (litApp ++ (c2 ++ (litSubsession ++ (c3 ++ (litRound ++ (c4 ++ (litGroup ++
        (c5 ++ (litComponent ++ (c6 ++ (litDecisions ++ t)))))))))))) :
    c1 = v1 ∧ c2 = v2 ∧ c3 = v3 ∧ c4 = v4 ∧ c5 = v5 ∧ c6 = v6 ∧ t = v7 := by
  -- Counting separators forces every capture of the decomposition to be
  -- separator-free.
  have hcount := congrArg slashCount E
  simp only [slashCount_append] at hcount
  rw [slashCount_eq_zero v1 h1, slashCount_eq_zero v2 h2, slashCount_eq_zero v3 h3,
    slashCount_eq_zero v4 h4, slashCount_eq_zero v5 h5, slashCount_eq_zero v6 h6,
    slashCount_eq_zero v7 h7] at hcount
  have hc1 : '/' ∉ c1 := not_mem_of_slashCount_eq_zero c1 (by omega)
  have hc2 : '/' ∉ c2 := not_mem_of_slashCount_eq_zero c2 (by omega)
  have hc3 : '/' ∉ c3 := not_mem_of_slashCount_eq_zero c3 (by omega)
  have hc4 : '/' ∉ c4 := not_mem_of_slashCount_eq_zero c4 (by omega)
  have hc5 : '/' ∉ c5 := not_mem_of_slashCount_eq_zero c5 (by omega)
  have hc6 : '/' ∉ c6 := not_mem_of_slashCount_eq_zero c6 (by omega)
  have hct : '/' ∉ t := not_mem_of_slashCount_eq_zero t (by omega)
  -- Peel the six literal segments one after the other.
  simp only [litApp, litSubsession, litRound, litGroup, litComponent, litDecisions,
    List.cons_append] at E
  obtain ⟨e1, E⟩ := slashfree_sep_inj v1 c1 _ _ h1 hc1 E
  have E := List.append_cancel_left E
  obtain ⟨e2, E⟩ := slashfree_sep_inj v2 c2 _ _ h2 hc2 E
  have E := List.append_cancel_left E
  obtain ⟨e3, E⟩ := slashfree_sep_inj v3 c3 _ _ h3 hc3 E
  have E := List.append_cancel_left E
  obtain ⟨e4, E⟩ := slashfree_sep_inj v4 c4 _ _ h4 hc4 E
  have E := List.append_cancel_left E
  obtain ⟨e5, E⟩ := slashfree_sep_inj v5 c5 _ _ h5 hc5 E
  have E := List.append_cancel_left E
  obtain ⟨e6, E⟩ := slashfree_sep_inj v6 c6 _ _ h6 hc6 E
  have E := List.append_cancel_left E
  exact ⟨e1.symm, e2.symm, e3.symm, e4.symm, e5.symm, e6.symm, E.symm⟩

/-! ### Claim C2: compile/match round trip on the decision pattern -/

/-- C2 (amended): substituting non-empty strings that contain neither the
separator `'/'` nor a newline for the seven capture names of the decision
pattern and matching the built path returns exactly those strings under
their capture names. -/
theorem claim_C2_thm (c : Caps)
    (hne1 : c.session ≠ []) (hne2 : c.app ≠ []) (hne3 : c.subsession ≠ [])
    (hne4 : c.round ≠ []) (hne5 : c.group ≠ []) (hne6 : c.component ≠ [])
    (hne7 : c.participant_code ≠ [])
    (hs1 : '/' ∉ c.session) (hs2 : '/' ∉ c.app) (hs3 : '/' ∉ c.subsession)
    (hs4 : '/' ∉ c.round) (hs5 : '/' ∉ c.group) (hs6 : '/' ∉ c.component)
    (hs7 : '/' ∉ c.participant_code)
    (hn1 : '\n' ∉ c.session) (hn2 : '\n' ∉ c.app) (hn3 : '\n' ∉ c.subsession)
    (hn4 : '\n' ∉ c.round) (hn5 : '\n' ∉ c.group) (hn6 : '\n' ∉ c.component)
    (hn7 : '\n' ∉ c.participant_code) :
    decisionMatch (buildDecisionPath c) = some c := by
  obtain ⟨s1, s2, s3, s4, s5, s6, s7⟩ := c
  simp only at hs1 hs2 hs3 hs4 hs5 hs6 hs7 hn1 hn2 hn3 hn4 hn5 hn6 hn7
  unfold buildDecisionPath decisionMatch
  simp only
  rw [isPrefixOf_append_self, if_pos rfl, List.drop_left]
  have hsome := m1_isSome s1 s2 s3 s4 s5 s6 s7
    ((noNL_iff s1).mpr hn1) ((noNL_iff s2).mpr hn2) ((noNL_iff s3).mpr hn3)
    ((noNL_iff s4).mpr hn4) ((noNL_iff s5).mpr hn5) ((noNL_iff s6).mpr hn6)
  obtain ⟨r, hr⟩ := Option.isSome_iff_exists.mp hsome
  obtain ⟨c1, c2, c3, c4, c5, c6, c7⟩ := r
  obtain ⟨t, hdecomp, hc7, -⟩ := m1_sound hr
  obtain ⟨e1, e2, e3, e4, e5, e6, e7⟩ :=
    decomp_unique s1 s2 s3 s4 s5 s6 s7 c1 c2 c3 c4 c5 c6 t
      hs1 hs2 hs3 hs4 hs5 hs6 hs7 hdecomp
  rw [hr]
  subst e1 e2 e3 e4 e5 e6
  rw [hc7, e7, takeWhile_eq_self_of_noNL s7 hn7]

/-- Witness for C2: the round trip at concrete capture values. -/
theorem claim_C2_witness :
    decisionMatch (buildDecisionPath ⟨"s1".toList, "econ".toList, "1".toList, "2".toList,
        "3".toList, "chat".toList, "p1".toList⟩) =
      some ⟨"s1".toList, "econ".toList, "1".toList, "2".toList, "3".toList, "chat".toList,
        "p1".toList⟩ :=
  claim_C2_thm ⟨"s1".toList, "econ".toList, "1".toList, "2".toList, "3".toList, "chat".toList,
      "p1".toList⟩
    (by decide) (by decide) (by decide) (by decide) (by decide) (by decide) (by decide)
    (by decide) (by decide) (by decide) (by decide) (by decide) (by decide) (by decide)
    (by decide) (by decide) (by decide) (by decide) (by decide) (by decide) (by decide)

/-- Counterexample to C2 as stated: the session value "a\nb" is non-empty
and separator-free, yet matching the path built from it fails outright
(the compiled `.*` groups cannot cross a newline), so no assignment is
returned at all. -/
theorem claim_C2_counterexample :
    ("a\nb".toList ≠ [] ∧ '/' ∉ "a\nb".toList) ∧
      decisionMatch (buildDecisionPath ⟨"a\nb".toList, "x".toList, "1".toList, "2".toList,
        "3".toList, "c".toList, "p".toList⟩) = none := by
  exact ⟨⟨by decide, by decide⟩, by decide⟩

/-! ### Claim C1: what a capture segment can match -/

/-- C1 (amended): a capture of the compiled decision pattern is not
restricted to one non-empty path segment.  A successful match decomposes
the path into the seven literals interleaved with the captured substrings,
each capture being an arbitrary — possibly empty, possibly
separator-containing — newline-free substring, and the trailing capture
taking the newline-free head of the remainder. -/
theorem claim_C1_thm (path : List Char) (caps : Caps)
    (h : decisionMatch path = some caps) :
    ∃ t, path = litSession ++ (caps.session ++ (litApp ++ (caps.app ++ (litSubsession ++
        (caps.subsession ++ (litRound ++ (caps.round ++ (litGroup ++ (caps.group ++
          (litComponent ++ (caps.component ++ (litDecisions ++ t)))))))))))) ∧
      caps.participant_code = t.takeWhile (fun c => c != '\n') ∧
      noNL caps.session = true ∧ noNL caps.app = true ∧ noNL caps.subsession = true ∧
      noNL caps.round = true ∧ noNL caps.group = true ∧ noNL caps.component = true := by
  unfold decisionMatch at h
  by_cases hp : litSession.isPrefixOf path = true
  · rw [if_pos hp] at h
    cases hm : m1 (path.drop litSession.length) with
    | none => rw [hm] at h; exact absurd h (by simp)
    | some r =>
      obtain ⟨c1, c2, c3, c4, c5, c6, c7⟩ := r
      rw [hm] at h
      injection h with h'
      obtain ⟨t, hdec, hc7, hn1, hn2, hn3, hn4, hn5, hn6⟩ := m1_sound hm
      subst h'
      refine ⟨t, ?_, hc7, hn1, hn2, hn3, hn4, hn5, hn6⟩
      rw [isPrefixOf_eq litSession path hp, hdec]
  · rw [if_neg hp] at h
    exact absurd h (by simp)

/-- Concrete matched path used to witness C1's characterization. -/
def c1WitPath : List Char :=
  "/session/s1/app/econ/subsession/1/round/2/group/3/component/chat/decisions/p1".toList

/-- Captures of `c1WitPath` under the decision pattern. -/
def c1WitCaps : Caps :=
  ⟨"s1".toList, "econ".toList, "1".toList, "2".toList, "3".toList, "chat".toList,
    "p1".toList⟩

/-- Witness for C1's characterization at a concrete matched path. -/
theorem claim_C1_witness :
    ∃ t, c1WitPath = litSession ++ (c1WitCaps.session ++ (litApp ++ (c1WitCaps.app ++
        (litSubsession ++ (c1WitCaps.subsession ++ (litRound ++ (c1WitCaps.round ++
        (litGroup ++ (c1WitCaps.group ++ (litComponent ++ (c1WitCaps.component ++
          (litDecisions ++ t)))))))))))) ∧
      c1WitCaps.participant_code = t.takeWhile (fun c => c != '\n') ∧
      noNL c1WitCaps.session = true ∧ noNL c1WitCaps.app = true ∧
      noNL c1WitCaps.subsession = true ∧ noNL c1WitCaps.round = true ∧
      noNL c1WitCaps.group = true ∧ noNL c1WitCaps.component = true :=
  claim_C1_thm c1WitPath c1WitCaps (by decide)

/-- Counterexample to C1 as stated: on this path the match assigns the
intermediate session capture the value "a/b", which contains the
separator (and spans two path segments). -/
theorem claim_C1_counterexample :
    decisionMatch
        ("/session/a/b/app/x/subsession/1/round/2/group/3/component/c/decisions/p".toList) =
      some ⟨"a/b".toList, "x".toList, "1".toList, "2".toList, "3".toList, "c".toList,
        "p".toList⟩ ∧
      '/' ∈ ("a/b".toList) :=
  ⟨by decide, by decide⟩

/-! ### Claims C5, C6, C9: behavior of the decision decoder -/

/-- C5: resolving the session capture to an unknown session code makes the
decoder drop the event silently — no record is saved and no error is
raised — while resolving the participant-code capture to an unknown
participant, with the session known (and the required numeric fields
parsed, which the code checks first), raises `Participant.DoesNotExist`. -/
theorem claim_C5_thm (db : Db) (g : Caps) (data : Value) :
    (db.sessions.contains g.session = false →
      handleDecisionEvent db g data = .ok []) ∧
    (db.sessions.contains g.session = true →
      ∀ r gr : Int, pyInt g.round = some r → pyInt g.group = some gr →
        db.participants.contains g.participant_code = false →
        handleDecisionEvent db g data = .error .participantDoesNotExist) := by
  constructor
  · intro h
    have h' : g.session ∉ db.sessions := by simpa using h
    simp [handleDecisionEvent, h']
  · intro hs r gr hr hg hp
    have hs' : g.session ∈ db.sessions := by simpa using hs
    have hp' : g.participant_code ∉ db.participants := by simpa using hp
    simp [handleDecisionEvent, hs', hr, hg, hp']

/-- Witness for C5 at a concrete database and capture set. -/
theorem claim_C5_witness :
    handleDecisionEvent ⟨["s1".toList], ["p1".toList]⟩
        ⟨"zz".toList, "econ".toList, "1".toList, "2".toList, "3".toList, "chat".toList,
          "p1".toList⟩ "v".toList = .ok [] ∧
      handleDecisionEvent ⟨["s1".toList], ["p1".toList]⟩
        ⟨"s1".toList, "econ".toList, "1".toList, "2".toList, "3".toList, "chat".toList,
          "qq".toList⟩ "v".toList = .error .participantDoesNotExist :=
  ⟨(claim_C5_thm ⟨["s1".toList], ["p1".toList]⟩
      ⟨"zz".toList, "econ".toList, "1".toList, "2".toList, "3".toList, "chat".toList,
        "p1".toList⟩ "v".toList).1 (by decide),
   (claim_C5_thm ⟨["s1".toList], ["p1".toList]⟩
      ⟨"s1".toList, "econ".toList, "1".toList, "2".toList, "3".toList, "chat".toList,
        "qq".toList⟩ "v".toList).2 (by decide) 2 3 (by decide) (by decide) (by decide)⟩

/-- C6: with the session known, a non-numeric subsession capture leaves
the subsession field unset and raises nothing (decoding proceeds to a
saved record), while a non-numeric round capture — or a numeric round with
a non-numeric group capture — raises `ValueError` and rejects the
event. -/
theorem claim_C6_thm (db : Db) (g : Caps) (data : Value)
    (hs : db.sessions.contains g.session = true) :
    (pyInt g.subsession = none →
      ∀ r gr : Int, pyInt g.round = some r → pyInt g.group = some gr →
        db.participants.contains g.participant_code = true →
        handleDecisionEvent db g data =
          .ok [{ component := g.component, session := g.session, subsession := none,
                 round := r, group := gr, participant := g.participant_code,
                 app := g.app, value := data }]) ∧
    (pyInt g.round = none → handleDecisionEvent db g data = .error .valueError) ∧
    (∀ r : Int, pyInt g.round = some r → pyInt g.group = none →
      handleDecisionEvent db g data = .error .valueError) := by
  have hs' : g.session ∈ db.sessions := by simpa using hs
  refine ⟨?_, ?_, ?_⟩
  · intro hsub r gr hr hg hp
    have hp' : g.participant_code ∈ db.participants := by simpa using hp
    simp [handleDecisionEvent, hs', hsub, hr, hg, hp']
  · intro hr
    simp [handleDecisionEvent, hs', hr]
  · intro r hr hg
    simp [handleDecisionEvent, hs', hr, hg]

/-- Witness for C6 at a concrete database and capture sets. -/
theorem claim_C6_witness :
    handleDecisionEvent ⟨["s1".toList], ["p1".toList]⟩
        ⟨"s1".toList, "econ".toList, "abc".toList, "2".toList, "3".toList, "chat".toList,
          "p1".toList⟩ "v".toList =
      .ok [{ component := "chat".toList, session := "s1".toList, subsession := none,
             round := 2, group := 3, participant := "p1".toList, app := "econ".toList,
             value := "v".toList }] ∧
      handleDecisionEvent ⟨["s1".toList], ["p1".toList]⟩
        ⟨"s1".toList, "econ".toList, "1".toList, "abc".toList, "3".toList, "chat".toList,
          "p1".toList⟩ "v".toList = .error .valueError ∧
      handleDecisionEvent ⟨["s1".toList], ["p1".toList]⟩
        ⟨"s1".toList, "econ".toList, "1".toList, "2".toList, "abc".toList, "chat".toList,
          "p1".toList⟩ "v".toList = .error .valueError :=
  ⟨(claim_C6_thm ⟨["s1".toList], ["p1".toList]⟩
      ⟨"s1".toList, "econ".toList, "abc".toList, "2".toList, "3".toList, "chat".toList,
        "p1".toList⟩ "v".toList (by decide)).1 (by decide) 2 3 (by decide) (by decide)
      (by decide),
   (claim_C6_thm ⟨["s1".toList], ["p1".toList]⟩
      ⟨"s1".toList, "econ".toList, "1".toList, "abc".toList, "3".toList, "chat".toList,
        "p1".toList⟩ "v".toList (by decide)).2.1 (by decide),
   (claim_C6_thm ⟨["s1".toList], ["p1".toList]⟩
      ⟨"s1".toList, "econ".toList, "1".toList, "2".toList, "abc".toList, "chat".toList,
        "p1".toList⟩ "v".toList (by decide)).2.2 2 (by decide) (by decide)⟩

/-- C9: the decoder is atomic with respect to persistence — `save` is
called at most once, and it is called exactly once precisely when the
session is known, round and group parse as integers, and the participant
is known; on every failure or drop path no record is stored. -/
theorem claim_C9_thm (db : Db) (g : Caps) (data : Value) :
    (savedOf (handleDecisionEvent db g data)).length ≤ 1 ∧
    ((savedOf (handleDecisionEvent db g data)).length = 1 ↔
      (db.sessions.contains g.session = true ∧ (pyInt g.round).isSome = true ∧
        (pyInt g.group).isSome = true ∧
        db.participants.contains g.participant_code = true)) := by
  unfold handleDecisionEvent
  cases hs : db.sessions.contains g.session
  · simp [savedOf, hs]
  · cases hr : pyInt g.round
    · simp [savedOf, hr]
    · cases hg : pyInt g.group
      · simp [savedOf, hr, hg]
      · cases hp : db.participants.contains g.participant_code
        · simp [savedOf, hr, hg, hp]
        · simp [savedOf, hr, hg, hp]

/-! ### Facts about the dispatch loop -/

/-- `invokedIds` distributes over concatenation of action lists. -/
lemma invokedIds_append (a b : List LoopAct) :
    invokedIds (a ++ b) = invokedIds a ++ invokedIds b := by
  unfold invokedIds
  rw [List.filterMap_append]

/-- Unfolding of the matching phase over the head registration. -/
lemma matchesOf_cons (r : Reg) (rest : List Reg) (p : List Char) :
    matchesOf (r :: rest) p =
      match r.matcher p with
      | some c => (r, c) :: matchesOf rest p
      | none => matchesOf rest p := by
  unfold matchesOf
  rw [List.filterMap_cons]
  cases r.matcher p <;> rfl

/-- The matching phase distributes over concatenation of registries. -/
lemma matchesOf_append (a b : List Reg) (p : List Char) :
    matchesOf (a ++ b) p = matchesOf a p ++ matchesOf b p := by
  unfold matchesOf
  rw [List.filterMap_append]

/-- Matching preserves registry order: the matched registrations form a
sublist of the registry. -/
lemma matchesOf_sublist (regs : List Reg) (p : List Char) :
    ((matchesOf regs p).map Prod.fst).Sublist regs := by
  induction regs with
  | nil => simp [matchesOf]
  | cons r rest ih =>
    rw [matchesOf_cons]
    cases hm : r.matcher p with
    | none => exact ih.cons r
    | some c => simpa using ih.cons₂ r

/-- Every collected handler is invoked, in collection order, whatever the
handlers do (raise or register). -/
lemma invokeAll_invokedIds (path : List Char) (data : Value) :
    ∀ (ms : List (Reg × Caps)) (regs : List Reg),
      invokedIds (invokeAll path data ms regs).1 = ms.map (fun rc => rc.1.rid) := by
  intro ms
  induction ms with
  | nil => intro regs; rfl
  | cons rc rest ih =>
    intro regs
    obtain ⟨r, c⟩ := rc
    have hstep : (invokeAll path data ((r, c) :: rest) regs).1 =
        (LoopAct.invoked r.rid ::
          (if (r.handler c data).1 then [LoopAct.loggedHandlerError path] else [])) ++
          (invokeAll path data rest (regs ++ (r.handler c data).2)).1 := rfl
    rw [hstep, invokedIds_append, ih]
    cases hb : (r.handler c data).1 <;> simp [invokedIds]

/-- Registrations appended by the handlers of one dispatch round, in
invocation order. -/
def regAdds (d : Value) : List (Reg × Caps) → List Reg
  | [] => []
  | rc :: rest => (rc.1.handler rc.2 d).2 ++ regAdds d rest

/-- The registry after the invocation phase is the starting registry
followed by everything the invoked handlers registered, in order. -/
lemma invokeAll_regs (path : List Char) (data : Value) :
    ∀ (ms : List (Reg × Caps)) (regs : List Reg),
      (invokeAll path data ms regs).2 = regs ++ regAdds data ms := by
  intro ms
  induction ms with
  | nil => intro regs; simp [invokeAll, regAdds]
  | cons rc rest ih =>
    intro regs
    obtain ⟨r, c⟩ := rc
    simp [invokeAll, regAdds, ih, List.append_assoc]

/-- A raising handler among the collected matches produces a logged
exception record for the offending path. -/
lemma invokeAll_logs_mem (path : List Char) (data : Value) :
    ∀ (ms : List (Reg × Caps)) (regs : List Reg) (r : Reg) (c : Caps),
      (r, c) ∈ ms → (r.handler c data).1 = true →
      LoopAct.loggedHandlerError path ∈ (invokeAll path data ms regs).1 := by
  intro ms
  induction ms with
  | nil => intro regs r c hm; exact absurd hm (by simp)
  | cons rc rest ih =>
    intro regs r c hm hr
    obtain ⟨r', c'⟩ := rc
    have hstep : (invokeAll path data ((r', c') :: rest) regs).1 =
        (LoopAct.invoked r'.rid ::
          (if (r'.handler c' data).1 then [LoopAct.loggedHandlerError path] else [])) ++
          (invokeAll path data rest (regs ++ (r'.handler c' data).2)).1 := rfl
    rw [hstep]
    rcases List.mem_cons.mp hm with he | hm'
    · have he1 : r = r' := congrArg Prod.fst he
      have he2 : c = c' := congrArg Prod.snd he
      subst he1
      subst he2
      rw [hr]
      simp
    · exact List.mem_append.mpr (Or.inr (ih _ r c hm' hr))

/-- The handler identifiers invoked while processing one `put` payload are
exactly the identifiers of the registrations matched against the
pre-dispatch registry, in registration order. -/
lemma processPut_invokedIds (regs : List Reg) (p : List Char) (d : Value) :
    invokedIds (processPut regs p d).1 = (matchesOf regs p).map (fun rc => rc.1.rid) := by
  have hstep : (processPut regs p d).1 =
      (if (matchesOf regs p).isEmpty then [LoopAct.warnNoMatch p] else []) ++
        (invokeAll p d (matchesOf regs p) regs).1 := rfl
  rw [hstep, invokedIds_append, invokeAll_invokedIds]
  cases he : (matchesOf regs p).isEmpty <;> simp [invokedIds]

/-! ### Concrete registrations used in witnesses and counterexamples -/

/-- Empty capture set produced by the all-matching concrete patterns. -/
def capsEmpty : Caps := ⟨[], [], [], [], [], [], []⟩

/-- A registration matching every path, whose handler returns normally. -/
def regOk : Reg := Reg.mk 0 (fun _ => some capsEmpty) (fun _ _ => (false, []))

/-- A registration whose pattern matches no path. -/
def regNone : Reg := Reg.mk 1 (fun _ => none) (fun _ _ => (false, []))

/-- A registration matching every path, whose handler raises. -/
def regRaise : Reg := Reg.mk 2 (fun _ => some capsEmpty) (fun _ _ => (true, []))

/-! ### Claim C3: what errors can terminate the event loop -/

/-- C3 (amended): a handler failure never terminates the event loop —
the crash state after a well-formed `put` event is whatever the remaining
events produce — but a failure to decode the transport envelope (malformed
JSON, or a payload without the `'path'` key) is not caught: it terminates
the loop at once, unlogged, and no later event is processed. -/
theorem claim_C3_thm (regs : List Reg) (rest : List Msg) (p : List Char) (d v : Value) :
    runLoop regs (⟨putTag, MsgData.malformed⟩ :: rest) = ([], regs, some Crash.jsonError) ∧
    runLoop regs (⟨putTag, MsgData.noPath v⟩ :: rest) = ([], regs, some Crash.keyError) ∧
    (runLoop regs (⟨putTag, MsgData.putData p d⟩ :: rest)).2.2 =
      (runLoop (processPut regs p d).2 rest).2.2 := by
  refine ⟨?_, ?_, ?_⟩ <;> simp [runLoop]

/-- Counterexample to C3 as stated: a malformed envelope terminates the
loop — the well-formed event queued behind it, which on its own would
invoke the matched handler, is never processed. -/
theorem claim_C3_counterexample :
    runLoop [regOk] [⟨putTag, MsgData.malformed⟩, ⟨putTag, MsgData.putData ['a'] []⟩] =
      ([], [regOk], some Crash.jsonError) ∧
    runLoop [regOk] [⟨putTag, MsgData.putData ['a'] []⟩] =
      ([LoopAct.invoked 0], [regOk], none) :=
  ⟨rfl, rfl⟩

/-! ### Claim C4: isolation of handler failures -/

/-- C4: when a matched handler raises, the exception is caught and logged
with the offending path, every matched handler is still invoked in
registration order, and the loop goes on to the remaining events. -/
theorem claim_C4_thm (regs : List Reg) (p : List Char) (d : Value) (rest : List Msg)
    (r : Reg) (c : Caps) (hm : (r, c) ∈ matchesOf regs p)
    (hr : (r.handler c d).1 = true) :
    LoopAct.loggedHandlerError p ∈ (processPut regs p d).1 ∧
    invokedIds (processPut regs p d).1 = (matchesOf regs p).map (fun rc => rc.1.rid) ∧
    runLoop regs (⟨putTag, MsgData.putData p d⟩ :: rest) =
      ((processPut regs p d).1 ++ (runLoop (processPut regs p d).2 rest).1,
        (runLoop (processPut regs p d).2 rest).2.1,
        (runLoop (processPut regs p d).2 rest).2.2) := by
  refine ⟨?_, processPut_invokedIds regs p d, ?_⟩
  · have hstep : (processPut regs p d).1 =
        (if (matchesOf regs p).isEmpty then [LoopAct.warnNoMatch p] else []) ++
          (invokeAll p d (matchesOf regs p) regs).1 := rfl
    rw [hstep]
    exact List.mem_append.mpr (Or.inr (invokeAll_logs_mem p d _ regs r c hm hr))
  · simp [runLoop]

/-- Witness for C4: the first of two matching handlers raises; the error
is logged, both handlers run in order, and the loop continues. -/
theorem claim_C4_witness :
    LoopAct.loggedHandlerError ['x'] ∈ (processPut [regRaise, regOk] ['x'] []).1 ∧
    invokedIds (processPut [regRaise, regOk] ['x'] []).1 =
      (matchesOf [regRaise, regOk] ['x']).map (fun rc => rc.1.rid) ∧
    runLoop [regRaise, regOk] (⟨putTag, MsgData.putData ['x'] []⟩ :: []) =
      ((processPut [regRaise, regOk] ['x'] []).1 ++
          (runLoop (processPut [regRaise, regOk] ['x'] []).2 []).1,
        (runLoop (processPut [regRaise, regOk] ['x'] []).2 []).2.1,
        (runLoop (processPut [regRaise, regOk] ['x'] []).2 []).2.2) :=
  claim_C4_thm [regRaise, regOk] ['x'] [] [] regRaise capsEmpty
    (List.mem_cons_self _ _) rfl

/-! ### Claim C7: match order and the unmatched-path diagnostic -/

/-- C7: matching walks the registry in registration order (the matches
form an order-preserving sublist of the registry and the invoked handler
identifiers equal the matched ones in that order); with zero matches, a
warning is emitted, no handler runs, the registry is unchanged, and the
loop continues with the next event. -/
theorem claim_C7_thm (regs : List Reg) (p : List Char) (d : Value) (rest : List Msg) :
    ((matchesOf regs p).map Prod.fst).Sublist regs ∧
    invokedIds (processPut regs p d).1 = (matchesOf regs p).map (fun rc => rc.1.rid) ∧
    (matchesOf regs p = [] →
      processPut regs p d = ([LoopAct.warnNoMatch p], regs) ∧
      runLoop regs (⟨putTag, MsgData.putData p d⟩ :: rest) =
        (LoopAct.warnNoMatch p :: (runLoop regs rest).1, (runLoop regs rest).2.1,
          (runLoop regs rest).2.2)) := by
  refine ⟨matchesOf_sublist regs p, processPut_invokedIds regs p d, ?_⟩
  intro h
  have hp : processPut regs p d = ([LoopAct.warnNoMatch p], regs) := by
    have hstep : processPut regs p d =
        ((if (matchesOf regs p).isEmpty then [LoopAct.warnNoMatch p] else []) ++
            (invokeAll p d (matchesOf regs p) regs).1,
          (invokeAll p d (matchesOf regs p) regs).2) := rfl
    rw [hstep, h]
    rfl
  refine ⟨hp, ?_⟩
  have hloop : runLoop regs (⟨putTag, MsgData.putData p d⟩ :: rest) =
      ((processPut regs p d).1 ++ (runLoop (processPut regs p d).2 rest).1,
        (runLoop (processPut regs p d).2 rest).2.1,
        (runLoop (processPut regs p d).2 rest).2.2) := by
    simp [runLoop]
  rw [hloop, hp]
  rfl

/-- Witness for C7 with a registry whose only pattern rejects the path. -/
theorem claim_C7_witness :
    ((matchesOf [regNone] ['x']).map Prod.fst).Sublist [regNone] ∧
    invokedIds (processPut [regNone] ['x'] []).1 =
      (matchesOf [regNone] ['x']).map (fun rc => rc.1.rid) ∧
    processPut [regNone] ['x'] [] = ([LoopAct.warnNoMatch ['x']], [regNone]) ∧
    runLoop [regNone] (⟨putTag, MsgData.putData ['x'] []⟩ :: []) =
      (LoopAct.warnNoMatch ['x'] :: (runLoop [regNone] []).1, (runLoop [regNone] []).2.1,
        (runLoop [regNone] []).2.2) :=
  ⟨(claim_C7_thm [regNone] ['x'] [] []).1, (claim_C7_thm [regNone] ['x'] [] []).2.1,
    ((claim_C7_thm [regNone] ['x'] [] []).2.2 rfl).1,
    ((claim_C7_thm [regNone] ['x'] [] []).2.2 rfl).2⟩

/-! ### Claim C8: registration -/

/-- C8 (amended): once the watcher has been started, `register_path`
always succeeds and appends the registration at the end of the registry,
where subsequent matching sees it after all earlier registrations; called
before `start`, however, it fails with `NameError` because the watcher
global does not exist yet. -/
theorem claim_C8_thm (st : ModuleState) (regs : List Reg) (r : Reg) (p : List Char)
    (h : st.watchThread = some regs) :
    register_path st r = .ok ⟨some (regs ++ [r])⟩ ∧
    matchesOf (regs ++ [r]) p =
      matchesOf regs p ++ (match r.matcher p with
        | some c => [(r, c)]
        | none => []) := by
  constructor
  · unfold register_path
    rw [h]
  · rw [matchesOf_append]
    congr 1
    rw [matchesOf_cons]
    cases r.matcher p <;> rfl

/-- Witness for C8 on a started watcher. -/
theorem claim_C8_witness :
    register_path ⟨some [regNone]⟩ regOk = .ok ⟨some ([regNone] ++ [regOk])⟩ ∧
    matchesOf ([regNone] ++ [regOk]) ['x'] =
      matchesOf [regNone] ['x'] ++ (match regOk.matcher ['x'] with
        | some c => [(regOk, c)]
        | none => []) :=
  claim_C8_thm ⟨some [regNone]⟩ [regNone] regOk ['x'] rfl

/-- Counterexample to C8 as stated: before `start()` has created the
watcher, `register_path` does not succeed — the module global it
dereferences does not exist and the call raises `NameError`. -/
theorem claim_C8_counterexample :
    register_path ⟨none⟩ regOk = .error () :=
  rfl

/-! ### Claim C10: the dispatch snapshot -/

/-- C10: the handlers to invoke for one event, and their order, are fixed
by the registry as it was when matching ran, before any handler executes:
whatever registrations the handlers append during their own invocation,
the invoked identifiers are exactly the pre-dispatch matches in order, and
the appended registrations only extend the registry used for subsequent
events. -/
theorem claim_C10_thm (regs : List Reg) (p : List Char) (d : Value) :
    invokedIds (processPut regs p d).1 = (matchesOf regs p).map (fun rc => rc.1.rid) ∧
    (processPut regs p d).2 = regs ++ regAdds d (matchesOf regs p) := by
  refine ⟨processPut_invokedIds regs p d, ?_⟩
  have hstep : (processPut regs p d).2 = (invokeAll p d (matchesOf regs p) regs).2 := rfl
  rw [hstep, invokeAll_regs]
